import Mathlib

/-!
Shallow embedding of the MarsBots voxel client core: the chunk store, the
per-tick update scheduler (`client/src/singleplayer.rs`), the static data
loader (`common/src/data/mod.rs`) and the texture loader
(`client/src/texture.rs`), together with proofs of the specified properties.

Modules of the repository that are referenced but whose sources are not
available (`common::world`, `common::registry`, `common::network::messages`,
the meshing engine and the collision resolver) are modelled from the spec;
each such definition says so in its doc comment.  The meshing engine and the
collision resolver enter the scheduler only as parameters, so the scheduler
theorems hold for every implementation of those collaborators.
-/

namespace MarsBots

/-- Block identifier, `pub type BlockId = u16` in `common/src/block/mod.rs`.
Air is id 0. -/
abbrev BlockId := Nat

/-- Modelled from the spec: `CHUNK_SIZE` (from the missing `common::world::chunk`)
is a compile-time constant, the side length of a chunk in blocks. -/
def CHUNK_SIZE : Nat := 32

/-- Chunk position: a 3-tuple of signed integers in chunk-grid units
(spec §3); equality is by value. -/
structure ChunkPos where
  px : Int
  py : Int
  pz : Int
deriving DecidableEq, Repr

/-- Modelled from the spec: `ChunkPos::offset(i, j, k)` (missing
`common::world`) translates a chunk position componentwise; the scheduler
uses it to enumerate the 26 neighbors of a received chunk. -/
def ChunkPos.offset (p : ChunkPos) (i j k : Int) : ChunkPos :=
  ⟨p.px + i, p.py + j, p.pz + k⟩

/-- Modelled from the spec: a chunk owns a fixed-size 3D array of block
identifiers plus its own position (missing `common::world::chunk`); the
array is modelled as a total function on local coordinates. -/
structure Chunk where
  pos : ChunkPos
  blocks : Nat → Nat → Nat → BlockId

/-- Modelled from the spec: the Chunk Store (missing `common::world::World`)
owns a mapping from chunk position to chunk, keys unique. -/
structure World where
  chunks : List Chunk

/-- Modelled from the spec: `World::new()` starts with no chunks. -/
def World.new : World := ⟨[]⟩

/-- Modelled from the spec: `set_chunk(chunk)` inserts or replaces the chunk
at its position, last-write-wins (spec §4.1). -/
def World.set_chunk (w : World) (c : Chunk) : World :=
  ⟨c :: w.chunks.filter (fun c2 => decide (c2.pos ≠ c.pos))⟩

/-- Modelled from the spec: `get_chunk(pos)` is a non-failing lookup
(spec §4.1). -/
def World.get_chunk (w : World) (pos : ChunkPos) : Option Chunk :=
  w.chunks.find? (fun c => decide (c.pos = pos))

/-- A world block position: signed integers in block units. -/
structure BlockPos where
  x : Int
  y : Int
  z : Int
deriving DecidableEq, Repr

/-- Modelled from the spec: the owning chunk of a world block position is
obtained by integer-dividing each coordinate by `CHUNK_SIZE` with floor
division, rounding toward negative infinity (spec §4.1). -/
def blockPosChunk (p : BlockPos) : ChunkPos :=
  ⟨Int.fdiv p.x (CHUNK_SIZE : Int),
   Int.fdiv p.y (CHUNK_SIZE : Int),
   Int.fdiv p.z (CHUNK_SIZE : Int)⟩

/-- Modelled from the spec: `get_block(world_block_pos)` resolves the owning
chunk and returns air (0) if that chunk is absent (spec §4.1); the local
coordinate inside the chunk is the floor-division remainder. -/
def World.get_block (w : World) (p : BlockPos) : BlockId :=
  match w.get_chunk (blockPosChunk p) with
  | none => 0
  | some c =>
      c.blocks (Int.fmod p.x (CHUNK_SIZE : Int)).toNat
               (Int.fmod p.y (CHUNK_SIZE : Int)).toNat
               (Int.fmod p.z (CHUNK_SIZE : Int)).toNat

/-- `TextureRect` from `common/src/data/mod.rs`: a normalized rectangle into
the shared texture atlas (coordinates modelled as rationals). -/
structure TextureRect where
  x : ℚ
  y : ℚ
  width : ℚ
  height : ℚ
deriving DecidableEq, Repr

/-- `BlockType` from `common/src/block/mod.rs`. -/
inductive BlockType where
  | Air : BlockType
  | NormalCube (face_texture : List String) : BlockType
deriving DecidableEq, Repr

/-- `Block` from `common/src/block/mod.rs`. -/
structure Block where
  name : String
  block_type : BlockType
deriving DecidableEq, Repr

/-- `BlockMesh` from `common/src/block/mod.rs`: `Empty` or `FullCube` with
six face texture rectangles. -/
inductive BlockMesh where
  | Empty : BlockMesh
  | FullCube (texture : List TextureRect) : BlockMesh
deriving DecidableEq, Repr

/-- Modelled from the spec: the registry (missing `common::registry`) maps
names to entries and assigns each entry a small sequential identifier,
stable for the registry's lifetime; registering a duplicate name fails. -/
structure Registry (T : Type) where
  items : List (String × T)

/-- Modelled from the spec: registering appends the entry and returns its
identifier (the number of previously registered entries); a duplicate name
is an error. -/
def Registry.register {T : Type} (r : Registry T) (name : String) (t : T) :
    Except String (Registry T × Nat) :=
  if r.items.any (fun q => q.1 == name) then
    Except.error "name already registered"
  else
    Except.ok (⟨r.items ++ [(name, t)]⟩, r.items.length)

/-- Modelled from the spec: name-to-identifier lookup on a registry. -/
def Registry.get_id_by_name {T : Type} (r : Registry T) (name : String) : Option Nat :=
  r.items.findIdx? (fun q => q.1 == name)

/-- A texture-atlas image as delivered in `GameData`: dimensions plus raw
RGBA bytes (bytes modelled as naturals). -/
structure Image where
  width : Nat
  height : Nat
  data : List Nat

/-- Modelled from the spec: the `GameData` payload (missing
`common::network::messages`), restricted to the fields the client core
reads: the block registry, the block-mesh list and the texture atlas. -/
structure GameDataMsg where
  blocks : Registry Block
  meshes : List BlockMesh
  texture_atlas : Image

/-- Modelled from the spec: a chunk snapshot as carried by a
`ToClient::Chunk` message (missing `common::network::messages`). -/
structure NetChunk where
  pos : ChunkPos
  blocks : Nat → Nat → Nat → BlockId

/-- Modelled from the spec: `chunk.to_chunk()` converts the network snapshot
into a stored chunk at the same position. -/
def NetChunk.to_chunk (c : NetChunk) : Chunk := ⟨c.pos, c.blocks⟩

/-- Modelled from the spec: `ToClient` message variants
(missing `common::network::messages`, spec §6). -/
inductive ToClient where
  | GameData (d : GameDataMsg) : ToClient
  | Chunk (c : NetChunk) : ToClient

/-- Player/world coordinates in block-length units (floats in the source,
modelled as rationals). -/
structure Vec3 where
  x : ℚ
  y : ℚ
  z : ℚ
deriving DecidableEq, Repr

/-- Componentwise vector addition (`+=` on `nalgebra::Vector3`). -/
def Vec3.add (a b : Vec3) : Vec3 := ⟨a.x + b.x, a.y + b.y, a.z + b.z⟩

instance : Add Vec3 := ⟨Vec3.add⟩

/-- Modelled from the spec: `ToServer` message variants
(missing `common::network::messages`, spec §6). -/
inductive ToServer where
  | SetPos (p : ℚ × ℚ × ℚ) : ToServer
deriving DecidableEq, Repr

/-- `ClientEvent` from `common/src/network/mod.rs`. -/
inductive ClientEvent where
  | NoEvent : ClientEvent
  | Connected : ClientEvent
  | Disconnected : ClientEvent
  | ServerMessage (m : ToClient) : ClientEvent

/-- Insertion into the dirty set (`HashSet::insert` in
`SinglePlayer::update`), modelled on lists with set semantics. -/
def insertPos (l : List ChunkPos) (p : ChunkPos) : List ChunkPos :=
  if p ∈ l then l else l ++ [p]

/-- The offsets `-1..=1` iterated by the dirty-marking loops. -/
def offs : List Int := [-1, 0, 1]

/-- The 27 positions `chunk.pos.offset(i, j, k)` for `i, j, k` in `-1..=1`,
in the nesting order of the loops in `SinglePlayer::update`. -/
def neighborhood (p : ChunkPos) : List ChunkPos :=
  offs.flatMap (fun i => offs.flatMap (fun j => offs.map (fun k => p.offset i j k)))

/-- The dirty-set effect of one received chunk: insert the chunk's position
and its 26 neighbors (`SinglePlayer::update`, lines 106-112). -/
def addDirty (dirty : List ChunkPos) (p : ChunkPos) : List ChunkPos :=
  (neighborhood p).foldl insertPos dirty

/-- The event-drain loop of `SinglePlayer::update` (lines 98-119).  The
pending queue is a list; an exhausted queue polls as `NoEvent`.  Returns the
outcome (the panic of the `Disconnected` arm, `unimplemented!("server
disconnected")`, is modelled as an error propagated to the caller) together
with the number of `receive_event()` polls performed. -/
def drain (q : List ClientEvent) (w : World) (dirty : List ChunkPos) :
    Except String (World × List ChunkPos) × Nat :=
  match q with
  | [] => (Except.ok (w, dirty), 1)
  | e :: rest =>
    match e with
    | ClientEvent.NoEvent => (Except.ok (w, dirty), 1)
    | ClientEvent.ServerMessage (ToClient.Chunk c) =>
        let r := drain rest (w.set_chunk c.to_chunk) (addDirty dirty c.pos)
        (r.1, r.2 + 1)
    | ClientEvent.ServerMessage (ToClient.GameData _) =>
        let r := drain rest w dirty
        (r.1, r.2 + 1)
    | ClientEvent.Connected =>
        let r := drain rest w dirty
        (r.1, r.2 + 1)
    | ClientEvent.Disconnected => (Except.error "server disconnected", 1)

/-- Whether the drain loop hits the `Disconnected` arm (and hence panics)
before its terminating `NoEvent`. -/
def drainErrors : List ClientEvent → Bool
  | [] => false
  | ClientEvent.NoEvent :: _ => false
  | ClientEvent.Disconnected :: _ => true
  | ClientEvent.Connected :: rest => drainErrors rest
  | ClientEvent.ServerMessage _ :: rest => drainErrors rest

/-- The chunk snapshots consumed by one drain, in arrival order. -/
def consumedChunks : List ClientEvent → List NetChunk
  | [] => []
  | ClientEvent.NoEvent :: _ => []
  | ClientEvent.Disconnected :: _ => []
  | ClientEvent.Connected :: rest => consumedChunks rest
  | ClientEvent.ServerMessage (ToClient.GameData _) :: rest => consumedChunks rest
  | ClientEvent.ServerMessage (ToClient.Chunk c) :: rest => c :: consumedChunks rest

/-- The world and dirty set produced by a completed drain (the error case is
given a dummy value; it is only consulted when `drainErrors` is false). -/
def drainResult (q : List ClientEvent) (w : World) : World × List ChunkPos :=
  match (drain q w []).1 with
  | Except.ok r => r
  | Except.error _ => (w, [])

/-- `WorldRenderer::update_chunk_mesh`: publish a mesh keyed by chunk
position, replacing any previous mesh for that position.  Modelled from the
spec (the renderer's source is not available): the mesh map is an
association list with unique keys. -/
def update_chunk_mesh {M : Type} (meshes : List (ChunkPos × M)) (pos : ChunkPos)
    (m : M) : List (ChunkPos × M) :=
  (pos, m) :: meshes.filter (fun q => decide (q.1 ≠ pos))

/-- Lookup in the published-mesh map. -/
def lookupMesh {M : Type} (meshes : List (ChunkPos × M)) (pos : ChunkPos) : Option M :=
  (meshes.find? (fun q => decide (q.1 = pos))).map (fun q => q.2)

/-- The meshing loop of `SinglePlayer::update` (lines 133-155): for each
dirty position, if its chunk is present in the store, invoke the meshing
engine and publish the mesh keyed by the chunk's position.  The engine
(missing `client::world::meshing`) is a parameter `mesh`, taking the world
(from which the code builds the `AdjChunkOccl` neighbor snapshot) and the
chunk.  Also returns the list of positions the engine was invoked on. -/
def meshPhase {M : Type} (mesh : World → Chunk → M) (w : World)
    (dirty : List ChunkPos) (meshes : List (ChunkPos × M)) :
    List (ChunkPos × M) × List ChunkPos :=
  match dirty with
  | [] => (meshes, [])
  | cp :: rest =>
    match w.get_chunk cp with
    | none => meshPhase mesh w rest meshes
    | some c =>
        let r := meshPhase mesh w rest (update_chunk_mesh meshes c.pos (mesh w c))
        (r.1, cp :: r.2)

/-- The camera/position block of `SinglePlayer::update` (lines 121-130):
when the UI lets the camera update, resolve the requested movement against
the world, advance the camera (and the player bounding volume, spec §3) by
the resolved displacement, and send a single `SetPos` with the new position.
`movement` abstracts `camera.get_movement(seconds_delta, keyboard_state)`
and `mcc` abstracts `player.move_check_collision` (both sources missing).
Returns the new camera position, the new player position and the messages
sent. -/
def cameraPhase (should_update_camera : Bool) (movement : Vec3)
    (mcc : World → Vec3 → Vec3) (w : World) (camera_pos player_pos : Vec3) :
    Vec3 × Vec3 × List ToServer :=
  if should_update_camera then
    let delta_move := mcc w movement
    let newPos := camera_pos + delta_move
    (newPos, player_pos + delta_move, [ToServer.SetPos (newPos.x, newPos.y, newPos.z)])
  else
    (camera_pos, player_pos, [])

/-- The client state touched by `SinglePlayer::update`: the chunk store, the
published meshes (keyed by chunk position), the camera position and the
player bounding-volume position. -/
structure ClientState (M : Type) where
  world : World
  meshes : List (ChunkPos × M)
  camera_pos : Vec3
  player_pos : Vec3

/-- The observable outcome of one tick. -/
structure UpdateOut (M : Type) where
  state : ClientState M
  sent : List ToServer
  meshed : List ChunkPos

/-- One tick of `SinglePlayer::update` (lines 96-155): drain all pending
events (chunk messages update the store and mark the 27-neighborhood
dirty), then resolve movement and send at most one `SetPos`, then mesh each
dirty chunk still present in the store.  The `Disconnected` panic is an
error propagated to the caller.  The second component counts the
`receive_event()` polls of the drain loop. -/
def SinglePlayer.update {M : Type} (mesh : World → Chunk → M)
    (should_update_camera : Bool) (movement : Vec3) (mcc : World → Vec3 → Vec3)
    (q : List ClientEvent) (s : ClientState M) :
    Except String (UpdateOut M) × Nat :=
  let r := drain q s.world []
  (match r.1 with
   | Except.error e => Except.error e
   | Except.ok (w, dirty) =>
       let cam := cameraPhase should_update_camera movement mcc w s.camera_pos s.player_pos
       let ms := meshPhase mesh w dirty s.meshes
       Except.ok ⟨⟨w, ms.1, cam.1, cam.2.1⟩, cam.2.2, ms.2⟩,
   r.2)

/-- The session-start wait loop of `SinglePlayer::new` (lines 56-61): poll
events until a `GameData` message arrives, discarding everything else;
returns that payload and the remaining queue, or `none` if the (finite
modelled) queue holds no `GameData` — in the source the loop would keep
spinning. -/
def waitGameData : List ClientEvent → Option (GameDataMsg × List ClientEvent)
  | [] => none
  | ClientEvent.ServerMessage (ToClient.GameData d) :: rest => some (d, rest)
  | _ :: rest => waitGameData rest

/-- The client state constructed by `SinglePlayer::new` (lines 68-82): a
fresh empty world, no published meshes, the camera at `(0.4, 1.6, 0.4)` and
the player box at the origin. -/
def newState (M : Type) : ClientState M :=
  ⟨World.new, [], ⟨2/5, 8/5, 2/5⟩, ⟨0, 0, 0⟩⟩

/-- The block-mesh descriptor computed for one block in `load_data`
(`common/src/data/mod.rs`, lines 122-136): air gets `Empty`; a normal cube
gets the six face texture rectangles, looked up by texture name.  A missing
name or rectangle panics in the source (`unwrap` / out-of-bounds indexing),
modelled as an error. -/
def blockMeshOf (texture_registery : Registry Unit)
    (texture_rects : List TextureRect) (bt : BlockType) : Except String BlockMesh :=
  match bt with
  | BlockType.Air => Except.ok BlockMesh.Empty
  | BlockType.NormalCube names => do
      let rects ← (List.range 6).mapM (fun i =>
        match names.get? i with
        | none => Except.error "index out of bounds"
        | some n =>
          match texture_registery.get_id_by_name n with
          | none => Except.error "called unwrap on a None value"
          | some id =>
            match texture_rects.get? id with
            | none => Except.error "index out of bounds"
            | some r => Except.ok r)
      Except.ok (BlockMesh.FullCube rects)

/-- The block-registration loop of `load_data` (`common/src/data/mod.rs`,
lines 116-138): for each parsed block file, register the block and push its
mesh descriptor, in lockstep. -/
def registerBlocks (texture_registery : Registry Unit)
    (texture_rects : List TextureRect) (blocks : Registry Block)
    (meshes : List BlockMesh) (block_data : List (String × BlockType)) :
    Except String (Registry Block × List BlockMesh) :=
  match block_data with
  | [] => Except.ok (blocks, meshes)
  | (name, block_type) :: rest => do
      let rb ← blocks.register name ⟨name, block_type⟩
      let mesh ← blockMeshOf texture_registery texture_rects block_type
      registerBlocks texture_registery texture_rects rb.1 (meshes ++ [mesh]) rest

/-- The blocks/meshes part of `load_data` (`common/src/data/mod.rs`, lines
103-138): register air first with an `Empty` mesh, then process the parsed
block data. -/
def load_data_blocks (texture_registery : Registry Unit)
    (texture_rects : List TextureRect) (block_data : List (String × BlockType)) :
    Except String (Registry Block × List BlockMesh) := do
  let rb ← (Registry.mk ([] : List (String × Block))).register "air"
             ⟨"air", BlockType.Air⟩
  registerBlocks texture_registery texture_rects rb.1 [BlockMesh.Empty] block_data

/-- `MIPMAP_LEVELS` from `client/src/texture.rs`. -/
def MIPMAP_LEVELS : Nat := 5

/-- Byte read from a pixel buffer (indexing in `load_image`). -/
def getByte (l : List Nat) (i : Nat) : Nat := (l.get? i).getD 0

/-- One mipmap layer of `load_image` (`client/src/texture.rs`): each output
byte is the average of the four parent pixels' corresponding bytes, cast
back to a byte. -/
def newLayer (previous_layer : List Nat) (previous_size current_size : Nat) :
    List Nat :=
  (List.range current_size).flatMap (fun row =>
    (List.range current_size).flatMap (fun col =>
      (List.range 4).map (fun color =>
        ((getByte previous_layer (2 * row * previous_size * 4 + 2 * col * 4 + color) +
          getByte previous_layer (2 * row * previous_size * 4 + (2 * col + 1) * 4 + color) +
          getByte previous_layer ((2 * row + 1) * previous_size * 4 + 2 * col * 4 + color) +
          getByte previous_layer ((2 * row + 1) * previous_size * 4 + (2 * col + 1) * 4 + color))
          / 4) % 256)))

/-- The mipmap loop of `load_image` (levels `1..MIPMAP_LEVELS`), stopping
early when the level size reaches zero. -/
def mipLoop (image_size : Nat) (acc : List (List Nat)) :
    List Nat → List (List Nat)
  | [] => acc
  | level :: rest =>
      let current_size := image_size >>> level
      if current_size = 0 then acc
      else
        let previous_size := image_size >>> (level - 1)
        let prev := (acc.getLast?).getD []
        mipLoop image_size (acc ++ [newLayer prev previous_size current_size]) rest

/-- The full mipmap chain of `load_image`: the original bytes followed by
the generated levels. -/
def load_image_mipmaps (img : Image) : List (List Nat) :=
  mipLoop img.width [img.data] [1, 2, 3, 4]

/-- `load_image` from `client/src/texture.rs`: asserts the atlas is square
(`assert_eq!(image.width(), image.height())`, modelled as an error) before
any processing, then generates the mipmap chain. -/
def load_image (img : Image) : Except String (List (List Nat)) :=
  if img.width = img.height then
    Except.ok (load_image_mipmaps img)
  else
    Except.error "assertion failed: image.width == image.height"

/-- The registry/mesh-list invariant of `load_data`: one mesh descriptor per
registered block, the i-th registered block's descriptor at index i. -/
def MeshInv (texture_registery : Registry Unit) (texture_rects : List TextureRect)
    (blocks : Registry Block) (meshes : List BlockMesh) : Prop :=
  meshes.length = blocks.items.length ∧
  ∀ (i : Nat) (e : String × Block), blocks.items[i]? = some e →
    ∃ m, meshes[i]? = some m ∧
      blockMeshOf texture_registery texture_rects e.2.block_type = Except.ok m

/-- The world resulting from applying a list of received chunk snapshots in
arrival order (`set_chunk` per message, last-write-wins). -/
def applyChunks (w : World) (cs : List NetChunk) : World :=
  cs.foldl (fun w2 c => w2.set_chunk c.to_chunk) w

/-- A concrete chunk snapshot at the origin, used by concrete instances. -/
def exNetChunk : NetChunk := ⟨⟨0, 0, 0⟩, fun _ _ _ => 1⟩

/-- A concrete event queue: one chunk message, then the queue is empty. -/
def exQueue : List ClientEvent :=
  [ClientEvent.ServerMessage (ToClient.Chunk exNetChunk), ClientEvent.NoEvent]

/-- The freshly constructed client state, with `Nat` as the mesh type. -/
def exState : ClientState Nat := ⟨World.new, [], ⟨2/5, 8/5, 2/5⟩, ⟨0, 0, 0⟩⟩

/-- A concrete meshing engine for concrete instances. -/
def exMesh : World → Chunk → Nat := fun _ _ => 7

/-- The tick outcome of draining `exQueue` from `exState`. -/
def exOut : UpdateOut Nat :=
  ⟨⟨World.new.set_chunk exNetChunk.to_chunk, [(⟨0, 0, 0⟩, 7)], ⟨2/5, 8/5, 2/5⟩,
    ⟨0, 0, 0⟩⟩, [], [⟨0, 0, 0⟩]⟩

/- ------------------------------------------------------------------ -/
/- Helper lemmas                                                       -/
/- ------------------------------------------------------------------ -/

theorem fdiv_bounds (a : Int) :
    32 * Int.fdiv a 32 ≤ a ∧ a < 32 * (Int.fdiv a 32 + 1) := by
  rw [Int.fdiv_eq_ediv _ (by norm_num)]
  omega

/-- C1: `get_block` resolves the owning chunk by floor division of each
coordinate by `CHUNK_SIZE` (the owning chunk's block range contains the
queried position, also on negative axes), and returns air (0) whenever that
chunk is absent from the store. -/
theorem get_block_floor_resolves_and_air (w : World) (p : BlockPos)
    (h : w.get_chunk (blockPosChunk p) = none) :
    ((blockPosChunk p).px * (CHUNK_SIZE : Int) ≤ p.x ∧
      p.x < ((blockPosChunk p).px + 1) * (CHUNK_SIZE : Int)) ∧
    ((blockPosChunk p).py * (CHUNK_SIZE : Int) ≤ p.y ∧
      p.y < ((blockPosChunk p).py + 1) * (CHUNK_SIZE : Int)) ∧
    ((blockPosChunk p).pz * (CHUNK_SIZE : Int) ≤ p.z ∧
      p.z < ((blockPosChunk p).pz + 1) * (CHUNK_SIZE : Int)) ∧
    w.get_block p = 0 := by
  refine ⟨?_, ?_, ?_, ?_⟩
  · have := fdiv_bounds p.x
    simp only [blockPosChunk, CHUNK_SIZE]
    push_cast
    constructor <;> nlinarith [this.1, this.2]
  · have := fdiv_bounds p.y
    simp only [blockPosChunk, CHUNK_SIZE]
    push_cast
    constructor <;> nlinarith [this.1, this.2]
  · have := fdiv_bounds p.z
    simp only [blockPosChunk, CHUNK_SIZE]
    push_cast
    constructor <;> nlinarith [this.1, this.2]
  · unfold World.get_block
    rw [h]

theorem get_block_floor_resolves_and_air_witness :
    World.new.get_chunk (blockPosChunk ⟨-5, 7, -64⟩) = none ∧
    (((blockPosChunk ⟨-5, 7, -64⟩).px * (CHUNK_SIZE : Int) ≤ -5 ∧
       (-5 : Int) < ((blockPosChunk ⟨-5, 7, -64⟩).px + 1) * (CHUNK_SIZE : Int)) ∧
     ((blockPosChunk ⟨-5, 7, -64⟩).py * (CHUNK_SIZE : Int) ≤ 7 ∧
       (7 : Int) < ((blockPosChunk ⟨-5, 7, -64⟩).py + 1) * (CHUNK_SIZE : Int)) ∧
     ((blockPosChunk ⟨-5, 7, -64⟩).pz * (CHUNK_SIZE : Int) ≤ -64 ∧
       (-64 : Int) < ((blockPosChunk ⟨-5, 7, -64⟩).pz + 1) * (CHUNK_SIZE : Int)) ∧
     World.new.get_block ⟨-5, 7, -64⟩ = 0) :=
  ⟨rfl, get_block_floor_resolves_and_air World.new ⟨-5, 7, -64⟩ rfl⟩

theorem mem_insertPos (l : List ChunkPos) (q p : ChunkPos) :
    p ∈ insertPos l q ↔ p ∈ l ∨ p = q := by
  unfold insertPos
  by_cases h : q ∈ l
  · rw [if_pos h]
    constructor
    · exact Or.inl
    · rintro (hp | rfl)
      · exact hp
      · exact h
  · rw [if_neg h]
    simp

theorem mem_foldl_insertPos (ns : List ChunkPos) (d : List ChunkPos) (p : ChunkPos) :
    p ∈ ns.foldl insertPos d ↔ p ∈ d ∨ p ∈ ns := by
  induction ns generalizing d with
  | nil => simp
  | cons a t ih =>
      simp only [List.foldl_cons, ih, mem_insertPos, List.mem_cons]
      tauto

theorem mem_addDirty (d : List ChunkPos) (cp p : ChunkPos) :
    p ∈ addDirty d cp ↔ p ∈ d ∨ p ∈ neighborhood cp := by
  unfold addDirty
  exact mem_foldl_insertPos _ _ _

theorem mem_neighborhood (c : ChunkPos) (p : ChunkPos) :
    p ∈ neighborhood c ↔
      ∃ i ∈ offs, ∃ j ∈ offs, ∃ k ∈ offs, p = c.offset i j k := by
  simp only [neighborhood, List.mem_flatMap, List.mem_map, eq_comm]

theorem mem_foldl_addDirty (cs : List NetChunk) (d : List ChunkPos) (p : ChunkPos) :
    p ∈ cs.foldl (fun dd c => addDirty dd c.pos) d ↔
      p ∈ d ∨ ∃ c ∈ cs, p ∈ neighborhood c.pos := by
  induction cs generalizing d with
  | nil => simp
  | cons a t ih =>
      simp only [List.foldl_cons, ih, mem_addDirty, List.mem_cons]
      constructor
      · rintro ((hd | hn) | ⟨c, hc, hn⟩)
        · exact Or.inl hd
        · exact Or.inr ⟨a, Or.inl rfl, hn⟩
        · exact Or.inr ⟨c, Or.inr hc, hn⟩
      · rintro (hd | ⟨c, (rfl | hc), hn⟩)
        · exact Or.inl (Or.inl hd)
        · exact Or.inl (Or.inr hn)
        · exact Or.inr ⟨c, hc, hn⟩

theorem drain_ok (q : List ClientEvent) (h : drainErrors q = false)
    (w : World) (d : List ChunkPos) :
    (drain q w d).1 =
      Except.ok (applyChunks w (consumedChunks q),
        (consumedChunks q).foldl (fun dd c => addDirty dd c.pos) d) := by
  induction q generalizing w d with
  | nil => simp [drain, consumedChunks, applyChunks]
  | cons e rest ih =>
      cases e with
      | NoEvent => simp [drain, consumedChunks, applyChunks]
      | Connected =>
          have h' : drainErrors rest = false := by simpa [drainErrors] using h
          simp [drain, consumedChunks, ih h']
      | Disconnected => simp [drainErrors] at h
      | ServerMessage m =>
          cases m with
          | GameData gd =>
              have h' : drainErrors rest = false := by simpa [drainErrors] using h
              simp [drain, consumedChunks, ih h']
          | Chunk c =>
              have h' : drainErrors rest = false := by simpa [drainErrors] using h
              simp [drain, consumedChunks, applyChunks, ih h']

theorem drain_error (q : List ClientEvent) (h : drainErrors q = true)
    (w : World) (d : List ChunkPos) :
    (drain q w d).1 = Except.error "server disconnected" := by
  induction q generalizing w d with
  | nil => simp [drainErrors] at h
  | cons e rest ih =>
      cases e with
      | NoEvent => simp [drainErrors] at h
      | Connected =>
          have h' : drainErrors rest = true := by simpa [drainErrors] using h
          simp [drain, ih h']
      | Disconnected => simp [drain]
      | ServerMessage m =>
          have h' : drainErrors rest = true := by simpa [drainErrors] using h
          cases m with
          | GameData gd => simp [drain, ih h']
          | Chunk c => simp [drain, ih h']

/-- C2: for a completed drain, the dirty set is exactly the union over the
received chunk messages of the 27-position neighborhood (the chunk's
position and its 26 face/edge/corner neighbors), and the world is the
result of applying `set_chunk` for each received chunk in order. -/
theorem drain_marks_27_neighborhood (q : List ClientEvent) (w : World)
    (h : drainErrors q = false) :
    (∀ p : ChunkPos, p ∈ (drainResult q w).2 ↔
        ∃ c ∈ consumedChunks q, ∃ i ∈ offs, ∃ j ∈ offs, ∃ k ∈ offs,
          p = c.pos.offset i j k) ∧
    (drainResult q w).1 = applyChunks w (consumedChunks q) := by
  have hd := drain_ok q h w []
  unfold drainResult
  rw [hd]
  refine ⟨fun p => ?_, rfl⟩
  rw [mem_foldl_addDirty]
  simp only [List.not_mem_nil, false_or]
  constructor
  · rintro ⟨c, hc, hn⟩
    exact ⟨c, hc, (mem_neighborhood c.pos p).mp hn⟩
  · rintro ⟨c, hc, hn⟩
    exact ⟨c, hc, (mem_neighborhood c.pos p).mpr hn⟩

theorem drain_marks_27_neighborhood_witness :
    drainErrors [ClientEvent.ServerMessage
        (ToClient.Chunk ⟨⟨0, 0, 0⟩, fun _ _ _ => 1⟩), ClientEvent.NoEvent] = false ∧
    ((∀ p : ChunkPos,
        p ∈ (drainResult [ClientEvent.ServerMessage
            (ToClient.Chunk ⟨⟨0, 0, 0⟩, fun _ _ _ => 1⟩), ClientEvent.NoEvent]
            World.new).2 ↔
        ∃ c ∈ consumedChunks [ClientEvent.ServerMessage
            (ToClient.Chunk ⟨⟨0, 0, 0⟩, fun _ _ _ => 1⟩), ClientEvent.NoEvent],
          ∃ i ∈ offs, ∃ j ∈ offs, ∃ k ∈ offs, p = c.pos.offset i j k) ∧
     (drainResult [ClientEvent.ServerMessage
         (ToClient.Chunk ⟨⟨0, 0, 0⟩, fun _ _ _ => 1⟩), ClientEvent.NoEvent]
         World.new).1 =
       applyChunks World.new (consumedChunks [ClientEvent.ServerMessage
         (ToClient.Chunk ⟨⟨0, 0, 0⟩, fun _ _ _ => 1⟩), ClientEvent.NoEvent])) :=
  ⟨rfl, drain_marks_27_neighborhood _ World.new rfl⟩

theorem insertPos_nodup (l : List ChunkPos) (p : ChunkPos) (h : l.Nodup) :
    (insertPos l p).Nodup := by
  unfold insertPos
  by_cases hp : p ∈ l
  · rwa [if_pos hp]
  · rw [if_neg hp]
    simp [List.nodup_append, h, hp]

theorem foldl_insertPos_nodup (ns : List ChunkPos) (d : List ChunkPos)
    (h : d.Nodup) : (ns.foldl insertPos d).Nodup := by
  induction ns generalizing d with
  | nil => exact h
  | cons a t ih =>
      rw [List.foldl_cons]
      exact ih _ (insertPos_nodup d a h)

theorem addDirty_nodup (d : List ChunkPos) (cp : ChunkPos) (h : d.Nodup) :
    (addDirty d cp).Nodup :=
  foldl_insertPos_nodup _ _ h

theorem foldl_addDirty_nodup (cs : List NetChunk) (d : List ChunkPos)
    (h : d.Nodup) : (cs.foldl (fun dd c => addDirty dd c.pos) d).Nodup := by
  induction cs generalizing d with
  | nil => exact h
  | cons a t ih =>
      rw [List.foldl_cons]
      exact ih _ (addDirty_nodup d a.pos h)

theorem drainResult_nodup (q : List ClientEvent) (w : World) :
    (drainResult q w).2.Nodup := by
  unfold drainResult
  cases herr : drainErrors q
  · rw [drain_ok q herr w []]
    exact foldl_addDirty_nodup _ _ List.nodup_nil
  · rw [drain_error q herr w []]
    exact List.nodup_nil

theorem get_chunk_pos (w : World) (cp : ChunkPos) (c : Chunk)
    (h : w.get_chunk cp = some c) : c.pos = cp := by
  unfold World.get_chunk at h
  have h2 := @List.find?_some Chunk (fun c2 => decide (c2.pos = cp)) c w.chunks h
  exact of_decide_eq_true h2

theorem find_filter_ne {M : Type} (l : List (ChunkPos × M)) (cp pos : ChunkPos)
    (hne : cp ≠ pos) :
    (l.filter (fun q => decide (q.1 ≠ pos))).find? (fun q => decide (q.1 = cp)) =
      l.find? (fun q => decide (q.1 = cp)) := by
  rw [List.find?_filter]
  congr 1
  funext a
  by_cases hp : a.1 = cp
  · have hnp : ¬(a.1 = pos) := by
      rw [hp]
      exact hne
    simp [hp, hnp]
    exact hne
  · simp [hp]

theorem lookupMesh_update_self {M : Type} (ms : List (ChunkPos × M))
    (pos : ChunkPos) (m : M) :
    lookupMesh (update_chunk_mesh ms pos m) pos = some m := by
  simp [lookupMesh, update_chunk_mesh, List.find?_cons]

theorem lookupMesh_update_ne {M : Type} (ms : List (ChunkPos × M))
    (pos : ChunkPos) (m : M) (cp : ChunkPos) (h : cp ≠ pos) :
    lookupMesh (update_chunk_mesh ms pos m) cp = lookupMesh ms cp := by
  unfold lookupMesh update_chunk_mesh
  rw [List.find?_cons]
  have h2 : decide ((pos, m).1 = cp) = false := by
    simp only [decide_eq_false_iff_not]
    exact fun hh => h hh.symm
  rw [h2]
  simp only [cond_false]
  rw [find_filter_ne ms cp pos h]

theorem meshPhase_trace {M : Type} (mesh : World → Chunk → M) (w : World)
    (dirty : List ChunkPos) (ms : List (ChunkPos × M)) :
    (meshPhase mesh w dirty ms).2 =
      dirty.filter (fun cp => (w.get_chunk cp).isSome) := by
  induction dirty generalizing ms with
  | nil => rfl
  | cons cp rest ih =>
      cases hc : w.get_chunk cp with
      | none => simp [meshPhase, hc, List.filter_cons, ih]
      | some c => simp [meshPhase, hc, List.filter_cons, ih]

theorem meshPhase_lookup_not_mem {M : Type} (mesh : World → Chunk → M)
    (w : World) (dirty : List ChunkPos) (ms : List (ChunkPos × M))
    (cp : ChunkPos) (h : cp ∉ dirty) :
    lookupMesh (meshPhase mesh w dirty ms).1 cp = lookupMesh ms cp := by
  induction dirty generalizing ms with
  | nil => rfl
  | cons d rest ih =>
      have hne : cp ≠ d := fun hh => h (hh ▸ List.mem_cons_self d rest)
      have h' : cp ∉ rest := fun hh => h (List.mem_cons_of_mem d hh)
      cases hc : w.get_chunk d with
      | none =>
          simp only [meshPhase, hc]
          exact ih _ h'
      | some c =>
          have hcp : c.pos = d := get_chunk_pos w d c hc
          simp only [meshPhase, hc]
          rw [ih _ h', lookupMesh_update_ne]
          rw [hcp]
          exact hne

theorem meshPhase_lookup_mem {M : Type} (mesh : World → Chunk → M)
    (w : World) (dirty : List ChunkPos) (ms : List (ChunkPos × M))
    (cp : ChunkPos) (c : Chunk) (hnd : dirty.Nodup) (hm : cp ∈ dirty)
    (hc : w.get_chunk cp = some c) :
    lookupMesh (meshPhase mesh w dirty ms).1 cp = some (mesh w c) := by
  induction dirty generalizing ms with
  | nil => cases hm
  | cons d rest ih =>
      rcases List.mem_cons.mp hm with rfl | hm'
      · have hcp : c.pos = cp := get_chunk_pos w cp c hc
        have hnotin : cp ∉ rest := (List.nodup_cons.mp hnd).1
        simp only [meshPhase, hc]
        rw [meshPhase_lookup_not_mem mesh w rest _ cp hnotin, hcp,
          lookupMesh_update_self]
      · have hnd' := (List.nodup_cons.mp hnd).2
        cases hcd : w.get_chunk d with
        | none =>
            simp only [meshPhase, hcd]
            exact ih _ hnd' hm'
        | some c2 =>
            simp only [meshPhase, hcd]
            exact ih _ hnd' hm'

/-- C3: in a completed tick, the meshing engine is invoked exactly on the
dirty positions whose chunk is present in the store (absent ones skipped
without error), at most once each; each produced mesh is published keyed by
that chunk position, replacing any previous mesh there, and meshes of
non-dirty positions are untouched.  Holds for every meshing engine
`mesh`. -/
theorem update_meshes_dirty_once {M : Type} (mesh : World → Chunk → M)
    (b : Bool) (mv : Vec3) (mcc : World → Vec3 → Vec3) (q : List ClientEvent)
    (s : ClientState M) (out : UpdateOut M) (n : Nat)
    (h : SinglePlayer.update mesh b mv mcc q s = (Except.ok out, n)) :
    out.state.world = (drainResult q s.world).1 ∧
    out.meshed.Nodup ∧
    out.meshed = (drainResult q s.world).2.filter
      (fun cp => (out.state.world.get_chunk cp).isSome) ∧
    (∀ cp c, cp ∈ (drainResult q s.world).2 →
        out.state.world.get_chunk cp = some c →
        lookupMesh out.state.meshes cp = some (mesh out.state.world c)) ∧
    (∀ cp, cp ∉ (drainResult q s.world).2 →
        lookupMesh out.state.meshes cp = lookupMesh s.meshes cp) := by
  have hnodup := drainResult_nodup q s.world
  cases hr : (drain q s.world []).1 with
  | error e =>
      simp only [SinglePlayer.update, hr] at h
      simp at h
  | ok r =>
      obtain ⟨w, dirty⟩ := r
      have hdr : drainResult q s.world = (w, dirty) := by
        unfold drainResult
        rw [hr]
      simp only [SinglePlayer.update, hr, Prod.mk.injEq] at h
      obtain ⟨h1, -⟩ := h
      have hout := (Except.ok.inj h1).symm
      subst hout
      rw [hdr] at hnodup ⊢
      refine ⟨rfl, ?_, ?_, ?_, ?_⟩
      · rw [meshPhase_trace]
        exact hnodup.filter _
      · rw [meshPhase_trace]
      · intro cp c hcp hc
        exact meshPhase_lookup_mem mesh w dirty s.meshes cp c hnodup hcp hc
      · intro cp hcp
        exact meshPhase_lookup_not_mem mesh w dirty s.meshes cp hcp

theorem update_meshes_dirty_once_witness :
    SinglePlayer.update exMesh false ⟨0, 0, 0⟩ (fun _ v => v) exQueue exState =
      (Except.ok exOut, 2) ∧
    (exOut.state.world = (drainResult exQueue exState.world).1 ∧
     exOut.meshed.Nodup ∧
     exOut.meshed = (drainResult exQueue exState.world).2.filter
       (fun cp => (exOut.state.world.get_chunk cp).isSome) ∧
     (∀ cp c, cp ∈ (drainResult exQueue exState.world).2 →
         exOut.state.world.get_chunk cp = some c →
         lookupMesh exOut.state.meshes cp = some (exMesh exOut.state.world c)) ∧
     (∀ cp, cp ∉ (drainResult exQueue exState.world).2 →
         lookupMesh exOut.state.meshes cp = lookupMesh exState.meshes cp)) :=
  ⟨rfl, update_meshes_dirty_once exMesh false ⟨0, 0, 0⟩ (fun _ v => v) exQueue
    exState exOut 2 rfl⟩

/-- C4 counterexample: with the event sequence `[Disconnected, NoEvent]` the
second poll is the first to return `NoEvent` (n = 1), yet the drain loop
performs only 1 poll, not n + 1 = 2: the `Disconnected` arm aborts the loop
(with a panic) before the `NoEvent` is ever polled. -/
theorem drain_polls_counterexample :
    [ClientEvent.Disconnected, ClientEvent.NoEvent][1]? = some ClientEvent.NoEvent ∧
    [ClientEvent.Disconnected, ClientEvent.NoEvent][0]? ≠ some ClientEvent.NoEvent ∧
    (drain [ClientEvent.Disconnected, ClientEvent.NoEvent] World.new []).2 = 1 ∧
    (drain [ClientEvent.Disconnected, ClientEvent.NoEvent] World.new []).2 ≠ 1 + 1 := by
  refine ⟨rfl, ?_, rfl, ?_⟩
  · intro h
    simp at h
  · intro h
    simp [drain] at h

/-- C4 (amended): if the (n+1)-th poll is the first to return `NoEvent` and
no `Disconnected` occurs among the first n events (a `Disconnected` aborts
the drain earlier), the drain loop terminates after exactly n + 1 polls and
performs no further polling in that tick. -/
theorem drain_polls_exact (pre rest : List ClientEvent) (w : World)
    (d : List ChunkPos) :
    (∀ e ∈ pre, e ≠ ClientEvent.NoEvent ∧ e ≠ ClientEvent.Disconnected) →
    (drain (pre ++ ClientEvent.NoEvent :: rest) w d).2 = pre.length + 1 := by
  induction pre generalizing w d with
  | nil =>
      intro _
      rfl
  | cons e t ih =>
      intro hpre
      have he := hpre e (List.mem_cons_self e t)
      have ht : ∀ x ∈ t, x ≠ ClientEvent.NoEvent ∧ x ≠ ClientEvent.Disconnected :=
        fun x hx => hpre x (List.mem_cons_of_mem e hx)
      cases e with
      | NoEvent => exact absurd rfl he.1
      | Disconnected => exact absurd rfl he.2
      | Connected => simp [drain, ih _ _ ht]
      | ServerMessage m =>
          cases m with
          | GameData gd => simp [drain, ih _ _ ht]
          | Chunk c => simp [drain, ih _ _ ht]

theorem drain_polls_exact_witness :
    (∀ e ∈ [ClientEvent.Connected],
        e ≠ ClientEvent.NoEvent ∧ e ≠ ClientEvent.Disconnected) ∧
    (drain ([ClientEvent.Connected] ++ ClientEvent.NoEvent ::
        ([] : List ClientEvent)) World.new []).2 = 2 := by
  have hpre : ∀ e ∈ [ClientEvent.Connected],
      e ≠ ClientEvent.NoEvent ∧ e ≠ ClientEvent.Disconnected := by
    intro e he
    simp only [List.mem_cons, List.not_mem_nil, or_false] at he
    subst he
    exact ⟨(fun h => nomatch h), (fun h => nomatch h)⟩
  exact ⟨hpre, drain_polls_exact [ClientEvent.Connected] [] World.new [] hpre⟩

theorem drain_gamedata_aux (pre post : List ClientEvent) (gd : GameDataMsg)
    (w : World) (d : List ChunkPos) :
    (drain (pre ++ ClientEvent.ServerMessage (ToClient.GameData gd) :: post) w d).1 =
      (drain (pre ++ post) w d).1 := by
  induction pre generalizing w d with
  | nil => simp [drain]
  | cons e t ih =>
      cases e with
      | NoEvent => simp [drain]
      | Disconnected => simp [drain]
      | Connected => simp [drain, ih]
      | ServerMessage m =>
          cases m with
          | GameData gd2 => simp [drain, ih]
          | Chunk c => simp [drain, ih]

/-- C5: a `GameData` message received during a tick is a no-op: the tick's
observable outcome (world, meshes, camera and player state, sent messages,
meshing trace, and the absence of an error) is exactly what it would have
been had the message not been in the queue. -/
theorem update_second_gamedata_noop {M : Type} (mesh : World → Chunk → M)
    (b : Bool) (mv : Vec3) (mcc : World → Vec3 → Vec3)
    (pre post : List ClientEvent) (gd : GameDataMsg) (s : ClientState M) :
    (SinglePlayer.update mesh b mv mcc
        (pre ++ ClientEvent.ServerMessage (ToClient.GameData gd) :: post) s).1 =
      (SinglePlayer.update mesh b mv mcc (pre ++ post) s).1 := by
  simp only [SinglePlayer.update]
  rw [drain_gamedata_aux]

theorem drain_disconnected (pre post : List ClientEvent) (w : World)
    (d : List ChunkPos) :
    (∀ e ∈ pre, e ≠ ClientEvent.NoEvent ∧ e ≠ ClientEvent.Disconnected) →
    drain (pre ++ ClientEvent.Disconnected :: post) w d =
      (Except.error "server disconnected", pre.length + 1) := by
  induction pre generalizing w d with
  | nil =>
      intro _
      rfl
  | cons e t ih =>
      intro hpre
      have he := hpre e (List.mem_cons_self e t)
      have ht : ∀ x ∈ t, x ≠ ClientEvent.NoEvent ∧ x ≠ ClientEvent.Disconnected :=
        fun x hx => hpre x (List.mem_cons_of_mem e hx)
      cases e with
      | NoEvent => exact absurd rfl he.1
      | Disconnected => exact absurd rfl he.2
      | Connected => simp [drain, ih _ _ ht]
      | ServerMessage m =>
          cases m with
          | GameData gd => simp [drain, ih _ _ ht]
          | Chunk c => simp [drain, ih _ _ ht]

/-- C6: a `Disconnected` event observed during a tick is terminal: the tick
stops at that poll (no further polling, no retry — the events after it are
never consumed) and the condition is propagated to the caller of `update`
as an unrecoverable session error. -/
theorem update_disconnected_terminal {M : Type} (mesh : World → Chunk → M)
    (b : Bool) (mv : Vec3) (mcc : World → Vec3 → Vec3)
    (pre post : List ClientEvent) (s : ClientState M) :
    (∀ e ∈ pre, e ≠ ClientEvent.NoEvent ∧ e ≠ ClientEvent.Disconnected) →
    SinglePlayer.update mesh b mv mcc
        (pre ++ ClientEvent.Disconnected :: post) s =
      (Except.error "server disconnected", pre.length + 1) := by
  intro hpre
  simp only [SinglePlayer.update]
  rw [drain_disconnected pre post s.world [] hpre]

theorem update_disconnected_terminal_witness :
    (∀ e ∈ [ClientEvent.Connected],
        e ≠ ClientEvent.NoEvent ∧ e ≠ ClientEvent.Disconnected) ∧
    SinglePlayer.update exMesh true ⟨0, 0, 0⟩ (fun _ v => v)
        ([ClientEvent.Connected] ++ ClientEvent.Disconnected ::
          [ClientEvent.ServerMessage (ToClient.Chunk exNetChunk)]) exState =
      (Except.error "server disconnected", 2) := by
  have hpre : ∀ e ∈ [ClientEvent.Connected],
      e ≠ ClientEvent.NoEvent ∧ e ≠ ClientEvent.Disconnected := by
    intro e he
    simp only [List.mem_cons, List.not_mem_nil, or_false] at he
    subst he
    exact ⟨(fun h => nomatch h), (fun h => nomatch h)⟩
  exact ⟨hpre, update_disconnected_terminal exMesh true ⟨0, 0, 0⟩ (fun _ v => v)
    [ClientEvent.Connected] [ClientEvent.ServerMessage (ToClient.Chunk exNetChunk)]
    exState hpre⟩

/-- C7: in a completed tick at most one `SetPos` is sent; none when the
camera is not updated, and when it is, the single `SetPos` carries exactly
the camera position reached after applying the collision-resolved
displacement (`move_check_collision` of the requested movement against the
post-drain world). -/
theorem update_setpos_once {M : Type} (mesh : World → Chunk → M) (b : Bool)
    (mv : Vec3) (mcc : World → Vec3 → Vec3) (q : List ClientEvent)
    (s : ClientState M) (out : UpdateOut M) (n : Nat)
    (h : SinglePlayer.update mesh b mv mcc q s = (Except.ok out, n)) :
    out.sent.length ≤ 1 ∧
    (b = false → out.sent = []) ∧
    (b = true →
      out.state.camera_pos = s.camera_pos + mcc out.state.world mv ∧
      out.sent = [ToServer.SetPos (out.state.camera_pos.x, out.state.camera_pos.y,
        out.state.camera_pos.z)]) := by
  cases hr : (drain q s.world []).1 with
  | error e =>
      simp only [SinglePlayer.update, hr] at h
      simp at h
  | ok r =>
      obtain ⟨w, dirty⟩ := r
      simp only [SinglePlayer.update, hr, Prod.mk.injEq] at h
      obtain ⟨h1, -⟩ := h
      have hout := (Except.ok.inj h1).symm
      subst hout
      cases b
      · simp [cameraPhase]
      · simp [cameraPhase]

theorem update_setpos_once_witness :
    SinglePlayer.update exMesh true ⟨0, 0, 0⟩ (fun _ v => v)
        [ClientEvent.NoEvent] exState =
      (Except.ok ⟨⟨World.new, [], ⟨2/5, 8/5, 2/5⟩ + ⟨0, 0, 0⟩,
          ⟨0, 0, 0⟩ + ⟨0, 0, 0⟩⟩,
        [ToServer.SetPos (((⟨2/5, 8/5, 2/5⟩ + ⟨0, 0, 0⟩ : Vec3)).x,
          ((⟨2/5, 8/5, 2/5⟩ + ⟨0, 0, 0⟩ : Vec3)).y,
          ((⟨2/5, 8/5, 2/5⟩ + ⟨0, 0, 0⟩ : Vec3)).z)], []⟩, 1) ∧
    (let out : UpdateOut Nat := ⟨⟨World.new, [], ⟨2/5, 8/5, 2/5⟩ + ⟨0, 0, 0⟩,
          ⟨0, 0, 0⟩ + ⟨0, 0, 0⟩⟩,
        [ToServer.SetPos (((⟨2/5, 8/5, 2/5⟩ + ⟨0, 0, 0⟩ : Vec3)).x,
          ((⟨2/5, 8/5, 2/5⟩ + ⟨0, 0, 0⟩ : Vec3)).y,
          ((⟨2/5, 8/5, 2/5⟩ + ⟨0, 0, 0⟩ : Vec3)).z)], []⟩
     out.sent.length ≤ 1 ∧
     (true = false → out.sent = []) ∧
     (true = true →
       out.state.camera_pos = exState.camera_pos + (fun _ v => v) out.state.world
         ⟨0, 0, 0⟩ ∧
       out.sent = [ToServer.SetPos (out.state.camera_pos.x, out.state.camera_pos.y,
         out.state.camera_pos.z)])) := by
  refine ⟨rfl, ?_⟩
  exact update_setpos_once exMesh true ⟨0, 0, 0⟩ (fun _ v => v)
    [ClientEvent.NoEvent] exState _ 1 rfl

theorem register_ok {T : Type} (r : Registry T) (name : String) (t : T)
    (rb : Registry T × Nat) (h : r.register name t = Except.ok rb) :
    rb.1.items = r.items ++ [(name, t)] ∧ rb.2 = r.items.length := by
  unfold Registry.register at h
  split at h
  · simp at h
  · have := Except.ok.inj h
    subst this
    exact ⟨rfl, rfl⟩

theorem MeshInv.push (tr : Registry Unit) (trs : List TextureRect)
    (blocks : Registry Block) (meshes : List BlockMesh) (name : String)
    (b : Block) (mesh : BlockMesh) (hinv : MeshInv tr trs blocks meshes)
    (hm : blockMeshOf tr trs b.block_type = Except.ok mesh) :
    MeshInv tr trs ⟨blocks.items ++ [(name, b)]⟩ (meshes ++ [mesh]) := by
  obtain ⟨hlen, hidx⟩ := hinv
  constructor
  · simp [hlen]
  · intro i e he
    by_cases hi : i < blocks.items.length
    · rw [List.getElem?_append_left hi] at he
      obtain ⟨m, hm1, hm2⟩ := hidx i e he
      refine ⟨m, ?_, hm2⟩
      rw [List.getElem?_append_left (by omega : i < meshes.length)]
      exact hm1
    · have hge : blocks.items.length ≤ i := by omega
      rw [List.getElem?_append_right hge] at he
      have hzero : i - blocks.items.length = 0 := by
        by_contra hne
        have : 1 ≤ i - blocks.items.length := by omega
        have : ([(name, b)] : List (String × Block))[i - blocks.items.length]? = none := by
          apply List.getElem?_eq_none
          simp
          omega
        rw [this] at he
        cases he
      rw [hzero] at he
      have he2 : e = (name, b) := by
        simpa using he.symm
      subst he2
      refine ⟨mesh, ?_, hm⟩
      have hi2 : i = meshes.length := by omega
      rw [hi2, List.getElem?_concat_length]

theorem registerBlocks_spec (tr : Registry Unit) (trs : List TextureRect)
    (bd : List (String × BlockType)) :
    ∀ (blocks : Registry Block) (meshes : List BlockMesh)
      (b2 : Registry Block) (m2 : List BlockMesh),
    registerBlocks tr trs blocks meshes bd = Except.ok (b2, m2) →
    MeshInv tr trs blocks meshes →
    MeshInv tr trs b2 m2 ∧
      ∃ t1 t2, b2.items = blocks.items ++ t1 ∧ m2 = meshes ++ t2 := by
  induction bd with
  | nil =>
      intro blocks meshes b2 m2 h hinv
      simp only [registerBlocks, Except.ok.injEq, Prod.mk.injEq] at h
      obtain ⟨rfl, rfl⟩ := h
      exact ⟨hinv, [], [], by simp, by simp⟩
  | cons a t ih =>
      intro blocks meshes b2 m2 h hinv
      obtain ⟨name, bt⟩ := a
      simp only [registerBlocks] at h
      cases hreg : blocks.register name ⟨name, bt⟩ with
      | error e =>
          rw [hreg] at h
          exact Except.noConfusion h
      | ok rb =>
          rw [hreg] at h
          cases hbm : blockMeshOf tr trs bt with
          | error e =>
              rw [hbm] at h
              exact Except.noConfusion h
          | ok mesh =>
              rw [hbm] at h
              have hr := register_ok blocks name ⟨name, bt⟩ rb hreg
              have hinv2 : MeshInv tr trs rb.1 (meshes ++ [mesh]) := by
                have := MeshInv.push tr trs blocks meshes name ⟨name, bt⟩ mesh hinv hbm
                rw [← hr.1] at this
                have hrb : rb.1 = ⟨rb.1.items⟩ := rfl
                rw [hrb, hr.1]
                rw [← hr.1]
                exact this
              obtain ⟨hinv3, t1, t2, ht1, ht2⟩ := ih rb.1 (meshes ++ [mesh]) b2 m2 h hinv2
              refine ⟨hinv3, [(name, ⟨name, bt⟩)] ++ t1, [mesh] ++ t2, ?_, ?_⟩
              · rw [ht1, hr.1]
                simp
              · rw [ht2]
                simp

/-- C8: when `load_data` succeeds, the block-mesh list has exactly one
descriptor per registered block — the i-th registered block's descriptor at
index i — the air block is registered first (id 0), and its descriptor is
`Empty`. -/
theorem load_data_one_mesh_per_block (tr : Registry Unit)
    (trs : List TextureRect) (bd : List (String × BlockType))
    (blocks : Registry Block) (meshes : List BlockMesh)
    (h : load_data_blocks tr trs bd = Except.ok (blocks, meshes)) :
    blocks.items[0]? = some ("air", ⟨"air", BlockType.Air⟩) ∧
    meshes[0]? = some BlockMesh.Empty ∧
    MeshInv tr trs blocks meshes := by
  unfold load_data_blocks at h
  simp only [Registry.register, List.any_nil, Bool.false_eq_true, if_false,
    List.nil_append, Except.bind] at h
  have hbase : MeshInv tr trs ⟨[("air", ⟨"air", BlockType.Air⟩)]⟩
      [BlockMesh.Empty] := by
    constructor
    · rfl
    · intro i e he
      cases i with
      | zero =>
          have he2 : e = ("air", ⟨"air", BlockType.Air⟩) := by
            simpa using he.symm
          subst he2
          exact ⟨BlockMesh.Empty, rfl, rfl⟩
      | succ j => simp at he
  obtain ⟨hinv, t1, t2, ht1, ht2⟩ :=
    registerBlocks_spec tr trs bd ⟨[("air", ⟨"air", BlockType.Air⟩)]⟩
      [BlockMesh.Empty] blocks meshes h hbase
  refine ⟨?_, ?_, hinv⟩
  · rw [ht1]
    simp
  · rw [ht2]
    simp

theorem load_data_one_mesh_per_block_witness :
    load_data_blocks ⟨[]⟩ [] [("dirt", BlockType.Air)] =
      Except.ok (⟨[("air", ⟨"air", BlockType.Air⟩), ("dirt", ⟨"dirt", BlockType.Air⟩)]⟩,
        [BlockMesh.Empty, BlockMesh.Empty]) ∧
    ((⟨[("air", ⟨"air", BlockType.Air⟩), ("dirt", ⟨"dirt", BlockType.Air⟩)]⟩ :
        Registry Block).items[0]? = some ("air", ⟨"air", BlockType.Air⟩) ∧
     ([BlockMesh.Empty, BlockMesh.Empty])[0]? = some BlockMesh.Empty ∧
     MeshInv ⟨[]⟩ [] ⟨[("air", ⟨"air", BlockType.Air⟩), ("dirt", ⟨"dirt", BlockType.Air⟩)]⟩
       [BlockMesh.Empty, BlockMesh.Empty]) :=
  ⟨rfl, load_data_one_mesh_per_block ⟨[]⟩ [] [("dirt", BlockType.Air)] _ _ rfl⟩

theorem waitGameData_skips (pre : List ClientEvent) (gd : GameDataMsg)
    (rest : List ClientEvent) :
    (∀ e ∈ pre, ∀ g : GameDataMsg, e ≠ ClientEvent.ServerMessage (ToClient.GameData g)) →
    waitGameData (pre ++ ClientEvent.ServerMessage (ToClient.GameData gd) :: rest) =
      some (gd, rest) := by
  induction pre with
  | nil =>
      intro _
      rfl
  | cons e t ih =>
      intro hpre
      have he := hpre e (List.mem_cons_self e t)
      have ht : ∀ x ∈ t, ∀ g : GameDataMsg,
          x ≠ ClientEvent.ServerMessage (ToClient.GameData g) :=
        fun x hx => hpre x (List.mem_cons_of_mem e hx)
      cases e with
      | NoEvent => exact ih ht
      | Connected => exact ih ht
      | Disconnected => exact ih ht
      | ServerMessage m =>
          cases m with
          | GameData g => exact absurd rfl (he g)
          | Chunk c => exact ih ht

/-- C9: `SinglePlayer::new` returns only on a `GameData` event; every event
before it — `Connected`, `Disconnected`, chunk messages — is discarded with
no effect (a `Disconnected` does not end the wait), and the state then
constructed starts from an empty world, so chunk contents delivered before
`GameData` are never applied. -/
theorem new_waits_for_gamedata (pre : List ClientEvent) (gd : GameDataMsg)
    (rest : List ClientEvent)
    (hpre : ∀ e ∈ pre, ∀ g : GameDataMsg,
      e ≠ ClientEvent.ServerMessage (ToClient.GameData g)) :
    waitGameData (pre ++ ClientEvent.ServerMessage (ToClient.GameData gd) :: rest) =
      some (gd, rest) ∧
    (newState Unit).world.chunks = [] :=
  ⟨waitGameData_skips pre gd rest hpre, rfl⟩

theorem new_waits_for_gamedata_witness :
    (∀ e ∈ [ClientEvent.Disconnected, ClientEvent.Connected,
        ClientEvent.ServerMessage (ToClient.Chunk exNetChunk)],
      ∀ g : GameDataMsg, e ≠ ClientEvent.ServerMessage (ToClient.GameData g)) ∧
    (waitGameData ([ClientEvent.Disconnected, ClientEvent.Connected,
        ClientEvent.ServerMessage (ToClient.Chunk exNetChunk)] ++
        ClientEvent.ServerMessage (ToClient.GameData ⟨⟨[]⟩, [], ⟨0, 0, []⟩⟩) ::
        ([] : List ClientEvent)) =
      some (⟨⟨[]⟩, [], ⟨0, 0, []⟩⟩, []) ∧
     (newState Unit).world.chunks = []) := by
  have hpre : ∀ e ∈ [ClientEvent.Disconnected, ClientEvent.Connected,
      ClientEvent.ServerMessage (ToClient.Chunk exNetChunk)],
      ∀ g : GameDataMsg, e ≠ ClientEvent.ServerMessage (ToClient.GameData g) := by
    intro e he g
    simp only [List.mem_cons, List.not_mem_nil, or_false] at he
    rcases he with rfl | rfl | rfl
    · exact fun h => nomatch h
    · exact fun h => nomatch h
    · intro h
      simp at h
  exact ⟨hpre, new_waits_for_gamedata _ ⟨⟨[]⟩, [], ⟨0, 0, []⟩⟩ [] hpre⟩

/-- C10: `load_image` accepts only a square atlas: a non-square image fails
the assertion (modelled as an error) before any processing, and a square
image passes it, after which mipmap generation proceeds. -/
theorem load_image_square_only (img : Image) :
    (img.width ≠ img.height →
      load_image img = Except.error "assertion failed: image.width == image.height") ∧
    (img.width = img.height → load_image img = Except.ok (load_image_mipmaps img)) := by
  constructor
  · intro h
    unfold load_image
    rw [if_neg h]
  · intro h
    unfold load_image
    rw [if_pos h]

theorem load_image_square_only_witness :
    ((2 : Nat) ≠ 3 ∧
      load_image ⟨2, 3, []⟩ =
        Except.error "assertion failed: image.width == image.height") ∧
    ((1 : Nat) = 1 ∧
      load_image ⟨1, 1, [0, 0, 0, 0]⟩ =
        Except.ok (load_image_mipmaps ⟨1, 1, [0, 0, 0, 0]⟩)) :=
  ⟨⟨by decide, (load_image_square_only ⟨2, 3, []⟩).1 (by decide)⟩,
   ⟨rfl, (load_image_square_only ⟨1, 1, [0, 0, 0, 0]⟩).2 rfl⟩⟩

end MarsBots
